import Mathlib

/-!
# Verification development for `dbtests/perftests.cpp`

A shallow embedding of the benchmark harness of `dbtests/perftests.cpp`
(class `B`: `run` and `say`; class `TaskQueueTest`) together with theorems
about it.

Conventions of the embedding.

* `unsigned long long` values are `Nat` reduced modulo `2 ^ 64` wherever the
  source performs arithmetic on them; `int` values are `Int`.
* A `Timer` is a function `Nat → Int`: its `i`-th call of `millis()` (counted
  from `0`) returns `t i`.  No assumption is made on the readings unless a
  theorem states one.
* Hook calls and the other observable actions of `run` are recorded in a
  trace of `Event`s, in program order.
* The two `do`/`while` loops of `run` are unbounded in the source; they are
  embedded with a fuel argument that bounds the number of batches.
-/

namespace PerfTests

/-! ## Machine arithmetic -/

/-- Reduction of a natural number to the range of `unsigned long long`. -/
def wrapU64 (x : Nat) : Nat := x % 2 ^ 64

/-- Reduction of an integer to the range of a 32-bit `int` (two's complement). -/
def wrapInt32 (x : Int) : Int := (x + 2 ^ 31) % 2 ^ 32 - 2 ^ 31

/-- Conversion of an `int` to `unsigned long long` (value modulo `2 ^ 64`). -/
def intToU64 (x : Int) : Nat := (x % 2 ^ 64).toNat

/-! ## The benchmark case (virtual hooks of class `B`) -/

/-- The metadata hooks of a benchmark case: the values returned by the
virtual functions of class `B` (lines 111-123).  `timed2` is the name
returned by `timed2()`, `none` standing for the null pointer. -/
structure Case where
  name : String
  howLongMillis : Int
  expectation : Nat
  expectationTimeMillis : Int
  timed2 : Option String
  showDurStats : Bool
deriving DecidableEq, Repr

/-- The two timed phases of `run`. -/
inductive Phase where
  | primary
  | secondary
deriving DecidableEq, Repr

/-- Observable actions of `B::run`, in the order in which they happen. -/
inductive Event where
  | dropCollection (ns : String)
  | prep
  | timed
  | timed2
  | post
  | statsReset
  | timerStart (ph : Phase)
  | millis (ph : Phase) (r : Int)
  | getLastError
  | say (ph : Phase) (n : Nat) (ms : Int) (s : String)
  | warnTime (name : String) (etm : Int)
  | warnOps (name : String) (n : Nat) (e : Nat)
deriving DecidableEq, Repr

/-- How an execution of `run` ended. -/
inductive Status where
  | done
  | outOfFuel
  | divByZero
deriving DecidableEq, Repr

/-- Result of an execution of `run`: the trace and how it ended. -/
structure Outcome where
  trace : List Event
  status : Status
deriving DecidableEq, Repr

/-- The constant `Batch` of `run` (line 214). -/
def Batch : Nat := 50

/-- Local state of a timing loop: the counter `n`, the number of
`millis()` readings taken so far on the phase timer, and the trace. -/
structure LoopState where
  n : Nat
  reads : Nat
  trace : List Event
deriving DecidableEq, Repr

/-- The inner loop `for( i = 0; i < Batch; i++ ) body();` started with
`r` iterations to go: returns the final `i` and the extended trace. -/
def forBatch (body : Event) : Nat → Nat × List Event → Nat × List Event
  | 0, s => s
  | r + 1, (i, tr) => forBatch body r (i + 1, tr ++ [body])

/-- One timing loop of `run`.  Each iteration runs a batch of `body`,
adds the batch counter `i` to `n` (64-bit), reads the timer and leaves the
loop when `stop` holds of the reading.  `none` means the fuel is used up. -/
def batchLoop (body : Event) (ph : Phase) (stop : Int → Bool) (t : Nat → Int) :
    Nat → LoopState → Option LoopState
  | 0, _ => none
  | fuel + 1, s =>
    let b := forBatch body Batch (0, s.trace)
    let r := t s.reads
    let s1 : LoopState := ⟨wrapU64 (s.n + b.1), s.reads + 1, b.2 ++ [Event.millis ph r]⟩
    if stop r then some s1 else batchLoop body ph stop t fuel s1

/-- The primary loop, lines 221-226:
`do { for(..) timed(); n += i; } while( t.millis() < hlm );`. -/
def primaryLoop (hlm : Int) (t : Nat → Int) (fuel : Nat) (s : LoopState) : Option LoopState :=
  batchLoop Event.timed Phase.primary (fun r => !decide (r < hlm)) t fuel s

/-- The secondary loop, lines 249-256:
`while( 1 ) { for(..) timed2(); n += i; if( t.millis() > hlm ) break; }`. -/
def secondaryLoop (hlm : Int) (t : Nat → Int) (fuel : Nat) (s : LoopState) : Option LoopState :=
  batchLoop Event.timed2 Phase.secondary (fun r => decide (r > hlm)) t fuel s

/-- Line 129 of `say`: `unsigned long long rps = n*1000/ms;`.  The
product is taken in 64-bit unsigned arithmetic, `ms` is converted to
`unsigned long long`; the division by zero has no defined result. -/
def sayRate (n : Nat) (ms : Int) : Option Nat :=
  if ms = 0 then none else some (wrapU64 (n * 1000) / intToU64 ms)

/-- The expectation check, lines 233-241: the warnings it prints.
`etm*2` is computed in `int`. -/
def expectationCheck (name : String) (n : Nat) (ms : Int) (etm : Int) (e : Nat) : List Event :=
  if etm > 0 then
    if ms > wrapInt32 (etm * 2) then [Event.warnTime name etm] else []
  else if n < e then [Event.warnOps name n e]
  else []

/-- The block of lines 243-260: the optional second phase. -/
def secondaryPhase (c : Case) (ts : Nat → Int) (fuel : Nat) (tr : List Event) : Outcome :=
  match c.timed2 with
  | none => ⟨tr ++ [Event.timed2], Status.done⟩
  | some name2 =>
    let tr1 := tr ++ [Event.timed2, Event.statsReset, Event.timerStart Phase.secondary]
    match secondaryLoop c.howLongMillis ts fuel ⟨0, 0, tr1⟩ with
    | none => ⟨tr1, Status.outOfFuel⟩
    | some s =>
      let ms := ts s.reads
      let tr2 := s.trace ++ [Event.millis Phase.secondary ms, Event.say Phase.secondary s.n ms name2]
      match sayRate s.n ms with
      | none => ⟨tr2, Status.divByZero⟩
      | some _ => ⟨tr2, Status.done⟩

/-- Lines 229-260 of `run`: what follows the primary timing, given the
state `s` in which the primary timing ended. -/
def afterPrimary (c : Case) (tp ts : Nat → Int) (fuel : Nat) (s : LoopState) : Outcome :=
  let ms := tp s.reads
  let tr1 := s.trace ++
    [Event.getLastError, Event.millis Phase.primary ms, Event.say Phase.primary s.n ms c.name]
  match sayRate s.n ms with
  | none => ⟨tr1, Status.divByZero⟩
  | some _ =>
    secondaryPhase c ts fuel
      (tr1 ++ expectationCheck c.name s.n ms c.expectationTimeMillis c.expectation)

/-- The trace of lines 203-213: everything before the primary timing. -/
def setupTrace (c : Case) : List Event :=
  [Event.dropCollection ("perftest." ++ c.name), Event.prep, Event.statsReset,
   Event.timerStart Phase.primary]

/-- The primary timing, lines 216-227: single shot when `hlm == 0`,
the batching loop otherwise. -/
def primaryPhase (c : Case) (tp : Nat → Int) (fuel : Nat) : Option LoopState :=
  if c.howLongMillis = 0 then
    some ⟨0, 0, setupTrace c ++ [Event.timed]⟩
  else
    primaryLoop c.howLongMillis tp fuel ⟨0, 0, setupTrace c⟩

/-- The function `B::run`, lines 202-261.  `tp` and `ts` are the timers of
the primary and of the secondary phase.  When the fuel is used up inside a
timing loop the status is `outOfFuel` and the trace is the one before
that loop. -/
def run (c : Case) (tp ts : Nat → Int) (fuel : Nat) : Outcome :=
  match primaryPhase c tp fuel with
  | none => ⟨setupTrace c, Status.outOfFuel⟩
  | some s => afterPrimary c tp ts fuel s

/-- The trace of a timing loop that runs `j` batches, reading the timer
from reading number `start` on. -/
def loopTrace (body : Event) (ph : Phase) (t : Nat → Int) : Nat → Nat → List Event
  | _, 0 => []
  | start, j + 1 =>
    List.replicate Batch body ++ [Event.millis ph (t start)] ++ loopTrace body ph t (start + 1) j

/-- Reading number `j` of the timer is the first one that is `≥ D`. -/
def FirstReadingAtLeast (D : Int) (t : Nat → Int) (j : Nat) : Prop :=
  D ≤ t j ∧ ∀ i < j, t i < D

/-- Reading number `j` of the timer is the first one that is `> D`. -/
def FirstReadingAbove (D : Int) (t : Nat → Int) (j : Nat) : Prop :=
  D < t j ∧ ∀ i < j, t i ≤ D

instance (D : Int) (t : Nat → Int) (j : Nat) : Decidable (FirstReadingAtLeast D t j) := by
  unfold FirstReadingAtLeast; infer_instance

instance (D : Int) (t : Nat → Int) (j : Nat) : Decidable (FirstReadingAbove D t j) := by
  unfold FirstReadingAbove; infer_instance

/-- The kinds of events that the second phase of `run` produces. -/
def Event.isSecondary : Event → Bool
  | Event.timed2 => true
  | Event.statsReset => true
  | Event.timerStart Phase.secondary => true
  | Event.millis Phase.secondary _ => true
  | Event.say Phase.secondary _ _ _ => true
  | _ => false

/-- The warnings of the expectation check. -/
def Event.isWarning : Event → Bool
  | Event.warnTime _ _ => true
  | Event.warnOps _ _ _ => true
  | _ => false

/-- Events that `run` produces only after the primary call of `say`:
the warnings of the expectation check and the events of the second phase. -/
def Event.isLate (e : Event) : Bool :=
  e.isWarning || e.isSecondary

/-- The bound on the elapsed time handed to `say`: at least `D` in the
primary phase when `D > 0`, more than `D` in the second phase. -/
def Event.sayBound (D : Int) : Event → Prop
  | Event.say Phase.primary _ ms _ => 0 < D → D ≤ ms
  | Event.say Phase.secondary _ ms _ => D < ms
  | _ => True

/-- The division of line 129 is defined at a call of `say`; the primary
call of a single-shot case (`D = 0`) is left out. -/
def Event.divisorOk (D : Int) : Event → Prop
  | Event.say Phase.primary n ms _ => D ≠ 0 → sayRate n ms ≠ none
  | Event.say Phase.secondary n ms _ => sayRate n ms ≠ none
  | _ => True

instance (D : Int) (e : Event) : Decidable (e.sayBound D) := by
  unfold Event.sayBound; split <;> infer_instance

instance (D : Int) (e : Event) : Decidable (e.divisorOk D) := by
  unfold Event.divisorOk; split <;> infer_instance

/-! ## Example cases -/

/-- The case `InsertDup` (lines 355-372). -/
def insertDup : Case :=
  ⟨"insert-duplicate-_ids", 5000, 1000, -1, none, true⟩

/-- The case `ChecksumTest` (lines 303-353). -/
def checksumTest : Case :=
  ⟨"checksum", 0, 0, 200, none, false⟩

/-- The case `Insert1` (lines 374-395). -/
def insert1 : Case :=
  ⟨"insert-simple", 5000, 1000, -1, some "findOne_by_id", true⟩

/-- The case `TLS` (lines 290-300). -/
def tls : Case :=
  ⟨"thread-local-storage", 5000, 1000000, -1, none, false⟩

/-- A case with a budget of one millisecond. -/
def wrapCase : Case :=
  ⟨"wrap", 1, 0, -1, none, false⟩

/-- A timer that reads `0` at its first `2 ^ 63 - 1` readings and `1` afterwards. -/
def wrapTimer : Nat → Int :=
  fun i => if i + 1 < 2 ^ 63 then 0 else 1

/-- A case with a budget of five milliseconds and a second phase. -/
def boundaryCase : Case :=
  ⟨"boundary", 5, 0, -1, some "second", false⟩

/-- A timer whose readings are 5, 6, 7, ... -/
def boundaryTimer : Nat → Int :=
  fun i => 5 + i

/-! ## The console line of `say` (lines 130-133) -/

/-- The adjustment flag of an output stream (`left`, `right`). -/
inductive Adjust where
  | left
  | right
deriving DecidableEq, Repr

/-- The part of the state of `cout` that formatted output depends on:
the characters written so far, the field width set by `setw`, the
adjustment flag and the fill character. -/
structure OStream where
  out : List Char
  width : Nat
  adjust : Adjust
  fill : Char
deriving DecidableEq, Repr

/-- Padding of a character sequence to the field width of the stream. -/
def OStream.pad (os : OStream) (s : List Char) : List Char :=
  match os.adjust with
  | Adjust.left => s ++ List.replicate (os.width - s.length) os.fill
  | Adjust.right => List.replicate (os.width - s.length) os.fill ++ s

/-- Formatted insertion `os << s`: the padded text is written and the
width is reset to `0`. -/
def OStream.put (os : OStream) (s : List Char) : OStream :=
  ⟨os.out ++ os.pad s, 0, os.adjust, os.fill⟩

/-- The manipulator `setw(w)`. -/
def OStream.setw (os : OStream) (w : Nat) : OStream :=
  ⟨os.out, w, os.adjust, os.fill⟩

/-- The manipulators `left` and `right`. -/
def OStream.setAdjust (os : OStream) (a : Adjust) : OStream :=
  ⟨os.out, os.width, a, os.fill⟩

/-- The manipulator `endl`: a newline, written unformatted. -/
def OStream.endl (os : OStream) : OStream :=
  ⟨os.out ++ ['\n'], os.width, os.adjust, os.fill⟩

/-- Lines 130-133 of `say`.  `csv` is the text returned by
`dur::stats.curr->_asCSV()`. -/
def sayConsole (os : OStream) (showDurStats : Bool) (csv : String) (rps : Nat) (ms : Int)
    (s : String) : OStream :=
  let os := os.put "stats ".toList
  let os := os.setw 33
  let os := os.setAdjust Adjust.left
  let os := os.put s.toList
  let os := os.put [' ']
  let os := os.setw 8
  let os := os.put (Nat.repr rps).toList
  let os := os.put [' ']
  let os := os.setAdjust Adjust.right
  let os := os.setw 6
  let os := os.put (toString ms).toList
  let os := os.put "ms ".toList
  let os := if showDurStats then os.put csv.toList else os
  os.endl

/-- A text left-justified in a field of `w` characters. -/
def leftField (w : Nat) (fill : Char) (s : List Char) : List Char :=
  s ++ List.replicate (w - s.length) fill

/-- A text right-justified in a field of `w` characters. -/
def rightField (w : Nat) (fill : Char) (s : List Char) : List Char :=
  List.replicate (w - s.length) fill ++ s

/-! ## The recording path of `say` (lines 138-200) -/

/-- What `assert(false)` of line 164 does.  The macro `assert` comes from
`pch.h`, which is not part of the sources at hand, so its behaviour is a
parameter: it throws an exception (caught by the `catch(...)` of line
198), it terminates the process, or it is compiled out. -/
inductive AssertKind where
  | throwing
  | aborting
  | disabled
deriving DecidableEq, Repr

/-- Outcomes of the external steps of one call of `say`: `exists(fn)`,
whether a password follows `pstatspassword="` in the file, the results of
`connect` and `auth`, and the value of `conn->isFailed()` at line 173. -/
structure PersistEnv where
  fileExists : Bool
  hasPassword : Bool
  connectOk : Bool
  authOk : Bool
  connFailed : Bool
deriving DecidableEq, Repr

/-- The connection object `*conn`; `authenticated` records whether `auth`
has succeeded on it. -/
structure Conn where
  authenticated : Bool
deriving DecidableEq, Repr

/-- The two static variables of the recording path: `ok` (line 139) and
`conn` (line 125), `none` standing for the null pointer. -/
structure ReportState where
  ok : Bool
  conn : Option Conn
deriving DecidableEq, Repr

/-- The state at process start: `ok = true`, `conn = 0`. -/
def ReportState.init : ReportState := ⟨true, none⟩

/-- How the block of lines 142-172 is left. -/
inductive InitResult where
  | continues (st : ReportState)
  | thrown (st : ReportState)
  | aborted
deriving DecidableEq, Repr

/-- Lines 142-172: the connection is set up when `conn == 0`. -/
def persistInit (ak : AssertKind) (e : PersistEnv) (st : ReportState) : InitResult :=
  match st.conn with
  | some _ => InitResult.continues st
  | none =>
    let ok1 := if e.hasPassword then st.ok else false
    if ok1 then
      if e.connectOk then
        if !e.authOk then
          match ak with
          | AssertKind.throwing => InitResult.thrown ⟨ok1, some ⟨false⟩⟩
          | AssertKind.aborting => InitResult.aborted
          | AssertKind.disabled => InitResult.continues ⟨ok1, some ⟨false⟩⟩
        else InitResult.continues ⟨ok1, some ⟨true⟩⟩
      else InitResult.continues ⟨false, some ⟨false⟩⟩
    else InitResult.continues ⟨ok1, none⟩

/-- Lines 138-200 of `say`: the new state and whether `conn->insert` was
called; `none` when the process was terminated. -/
def sayPersist (ak : AssertKind) (e : PersistEnv) (st : ReportState) :
    Option (ReportState × Bool) :=
  if st.ok && e.fileExists then
    match persistInit ak e st with
    | InitResult.aborted => none
    | InitResult.thrown st1 => some (st1, false)
    | InitResult.continues st1 =>
      if st1.conn.isSome && !e.connFailed then some (st1, true) else some (st1, false)
  else some (st, false)

/-- A sequence of calls of `say` in one process: for each call the state
before it is threaded through; the result lists, call by call, whether an
insert was made and whether the connection was authenticated then. -/
def sayPersistAll (ak : AssertKind) : List PersistEnv → ReportState → List (Bool × Bool)
  | [], _ => []
  | e :: es, st =>
    match sayPersist ak e st with
    | none => []
    | some (st1, ins) =>
      (ins, (st1.conn.map Conn.authenticated).getD false) :: sayPersistAll ak es st1

/-- The settings file is there with a password, `connect` succeeds,
`auth` fails, and the connection is not marked failed. -/
def authFails : PersistEnv :=
  ⟨true, true, true, false, false⟩

/-- The settings file is there without a password entry. -/
def noPassword : PersistEnv :=
  ⟨true, false, true, true, false⟩

/-- The settings file is there with a password, `connect` fails and marks
the connection failed. -/
def connectFails : PersistEnv :=
  ⟨true, true, false, true, true⟩

/-- Every external step succeeds. -/
def allSucceed : PersistEnv :=
  ⟨true, true, true, true, false⟩

/-! ## The deferred task queue and `TaskQueueTest` (lines 72-97) -/

/-- Modelled from the spec: the class template `TaskQueue` of
`db/taskqueue.h`, which is not part of the sources at hand.  The queue
holds copies of the deferred items in submission order. -/
structure TaskQueue (α : Type) where
  queue : List α
deriving DecidableEq, Repr

/-- Modelled from the spec: the empty queue, as constructed by
`TaskQueue<V> d;` (`db/taskqueue.h` is missing). -/
def TaskQueue.empty {α : Type} : TaskQueue α := ⟨[]⟩

/-- Modelled from the spec: `defer` of `db/taskqueue.h` (missing) appends
a copy of the item to the queue. -/
def TaskQueue.defer {α : Type} (q : TaskQueue α) (v : α) : TaskQueue α :=
  ⟨q.queue ++ [v]⟩

/-- Modelled from the spec: `invoke` of `db/taskqueue.h` (missing) calls
the handler once per queued item in FIFO order and then empties the
queue.  The handler acts on a state of type `σ`. -/
def TaskQueue.invoke {α σ : Type} (handler : σ → α → σ) (q : TaskQueue α) (s : σ) :
    TaskQueue α × σ :=
  (⟨[]⟩, q.queue.foldl handler s)

/-- An operation on a task queue. -/
inductive QueueOp (α : Type) where
  | defer (v : α)
  | invoke
deriving DecidableEq, Repr

/-- Execution of a sequence of queue operations. -/
def runOps {α σ : Type} (handler : σ → α → σ) :
    List (QueueOp α) → TaskQueue α × σ → TaskQueue α × σ
  | [], st => st
  | QueueOp.defer v :: ops, (q, s) => runOps handler ops (q.defer v, s)
  | QueueOp.invoke :: ops, (q, s) => runOps handler ops (q.invoke handler s)

/-- The items deferred by a sequence of operations, in order. -/
def deferred {α : Type} : List (QueueOp α) → List α
  | [] => []
  | QueueOp.defer v :: ops => v :: deferred ops
  | QueueOp.invoke :: ops => deferred ops

/-- The struct `TaskQueueTest::V` (lines 74-77). -/
structure V where
  val : Int
deriving DecidableEq, Repr

/-- The handler `V::go` (line 76): `tot += v.val`, an addition of `int`s.
Overflow of a signed addition is undefined in the source and is not
modelled; in `TaskQueueTest::run` the total stays at most 4950. -/
def V.go (tot : Int) (v : V) : Int := tot + v.val

/-- The variables of `TaskQueueTest::run`: the static `tot`, the local
`x` and the queue `d`. -/
structure TQState where
  tot : Int
  x : Int
  d : TaskQueue V
deriving DecidableEq, Repr

/-- The body of the loop of lines 83-92 for the index `i`. -/
def TaskQueueTest.body (i : Nat) (s : TQState) : TQState :=
  let s1 : TQState :=
    if i % 30 = 0 then
      let r := s.d.invoke V.go s.tot
      ⟨r.2, s.x, r.1⟩
    else s
  ⟨s1.tot, s1.x + i, s1.d.defer ⟨i⟩⟩

/-- The loop `for( int i = 0; i < 100; i++ )` with `r` iterations to go. -/
def TaskQueueTest.loop : Nat → Nat → TQState → TQState
  | 0, _, s => s
  | r + 1, i, s => TaskQueueTest.loop r (i + 1) (TaskQueueTest.body i s)

/-- The function `TaskQueueTest::run` (lines 79-95): the final values of
`x` and `tot`; the assertion of line 94 is `x == tot`. -/
def TaskQueueTest.run : Int × Int :=
  let s := TaskQueueTest.loop 100 0 ⟨0, 0, TaskQueue.empty⟩
  let r := s.d.invoke V.go s.tot
  (s.x, r.2)

/-- The operations that `TaskQueueTest::run` performs on the queue. -/
def TaskQueueTest.ops : Nat → Nat → List (QueueOp V)
  | 0, _ => [QueueOp.invoke]
  | r + 1, i =>
    (if i % 30 = 0 then [QueueOp.invoke] else []) ++ [QueueOp.defer ⟨i⟩] ++
      TaskQueueTest.ops r (i + 1)

/-! ## Basic facts on the loops -/

theorem wrapU64_add_wrapU64 (a b : Nat) : wrapU64 (wrapU64 a + b) = wrapU64 (a + b) := by
  unfold wrapU64; omega

theorem forBatch_eq (body : Event) (r i : Nat) (tr : List Event) :
    forBatch body r (i, tr) = (i + r, tr ++ List.replicate r body) := by
  induction r generalizing i tr with
  | zero => simp [forBatch]
  | succ r ih =>
    simp only [forBatch, ih, List.replicate_succ, List.append_assoc, List.singleton_append]
    congr 1
    omega

theorem batchLoop_step (body : Event) (ph : Phase) (stop : Int → Bool) (t : Nat → Int)
    (fuel : Nat) (s : LoopState) :
    batchLoop body ph stop t (fuel + 1) s =
      if stop (t s.reads) then
        some ⟨wrapU64 (s.n + Batch), s.reads + 1,
          s.trace ++ (List.replicate Batch body ++ [Event.millis ph (t s.reads)])⟩
      else
        batchLoop body ph stop t fuel ⟨wrapU64 (s.n + Batch), s.reads + 1,
          s.trace ++ (List.replicate Batch body ++ [Event.millis ph (t s.reads)])⟩ := by
  simp [batchLoop, forBatch_eq]

/-- Totality direction: when reading `j` (counted from the current one) is
the first at which `stop` holds and the fuel exceeds `j`, the loop ends
after exactly `j + 1` batches. -/
theorem batchLoop_of_firstStop (body : Event) (ph : Phase) (stop : Int → Bool) (t : Nat → Int)
    (j : Nat) : ∀ (fuel : Nat) (s : LoopState),
    stop (t (s.reads + j)) = true → (∀ i < j, stop (t (s.reads + i)) = false) → j < fuel →
    batchLoop body ph stop t fuel s =
      some ⟨wrapU64 (s.n + Batch * (j + 1)), s.reads + (j + 1),
        s.trace ++ loopTrace body ph t s.reads (j + 1)⟩ := by
  induction j with
  | zero =>
    intro fuel s hs _ hf
    obtain ⟨f, rfl⟩ : ∃ f, fuel = f + 1 := ⟨fuel - 1, by omega⟩
    rw [batchLoop_step]
    simp only [Nat.add_zero] at hs
    simp [hs, loopTrace]
  | succ j ih =>
    intro fuel s hs hlt hf
    obtain ⟨f, rfl⟩ : ∃ f, fuel = f + 1 := ⟨fuel - 1, by omega⟩
    rw [batchLoop_step]
    have h0 : stop (t s.reads) = false := by simpa using hlt 0 (by omega)
    simp only [h0, Bool.false_eq_true, if_false]
    rw [ih f _ (by simpa [Nat.add_assoc, Nat.add_comm 1 j] using hs)
      (fun i hi => by simpa [Nat.add_assoc, Nat.add_comm 1 i] using hlt (i + 1) (by omega))
      (by omega)]
    simp only [wrapU64_add_wrapU64, Option.some.injEq, LoopState.mk.injEq]
    refine ⟨by congr 1; ring, by omega, ?_⟩
    rw [loopTrace.eq_2 body ph t s.reads (j + 1)]
    simp [List.append_assoc]

/-- While `stop` fails of every reading the fuel allows, the loop does not end. -/
theorem batchLoop_none (body : Event) (ph : Phase) (stop : Int → Bool) (t : Nat → Int) :
    ∀ (fuel : Nat) (s : LoopState), (∀ i < fuel, stop (t (s.reads + i)) = false) →
    batchLoop body ph stop t fuel s = none := by
  intro fuel
  induction fuel with
  | zero => intro s _; rfl
  | succ f ih =>
    intro s h
    rw [batchLoop_step]
    have h0 : stop (t s.reads) = false := by simpa using h 0 (by omega)
    simp only [h0, Bool.false_eq_true, if_false]
    exact ih _ (fun i hi => by simpa [Nat.add_assoc, Nat.add_comm 1 i] using h (i + 1) (by omega))

/-- Converse direction: every result of the loop is the one reached at the
first reading at which `stop` holds. -/
theorem batchLoop_some (body : Event) (ph : Phase) (stop : Int → Bool) (t : Nat → Int) :
    ∀ (fuel : Nat) (s r : LoopState), batchLoop body ph stop t fuel s = some r →
    ∃ j, j < fuel ∧ stop (t (s.reads + j)) = true ∧ (∀ i < j, stop (t (s.reads + i)) = false) ∧
      r = ⟨wrapU64 (s.n + Batch * (j + 1)), s.reads + (j + 1),
        s.trace ++ loopTrace body ph t s.reads (j + 1)⟩ := by
  intro fuel s r h
  by_cases hex : ∃ i, i < fuel ∧ stop (t (s.reads + i)) = true
  · classical
    let j := Nat.find hex
    have hj : j < fuel ∧ stop (t (s.reads + j)) = true := Nat.find_spec hex
    have hmin : ∀ i < j, stop (t (s.reads + i)) = false := by
      intro i hi
      have := Nat.find_min hex hi
      simp only [not_and, Bool.not_eq_true] at this
      exact this (by omega)
    refine ⟨j, hj.1, hj.2, hmin, ?_⟩
    rw [batchLoop_of_firstStop body ph stop t j fuel s hj.2 hmin hj.1] at h
    exact (Option.some.inj h).symm
  · have hn : ∀ i < fuel, stop (t (s.reads + i)) = false := by
      intro i hi
      by_contra hc
      exact hex ⟨i, hi, by simpa using hc⟩
    rw [batchLoop_none body ph stop t fuel s hn] at h
    cases h

theorem mem_loopTrace (body : Event) (ph : Phase) (t : Nat → Int) (e : Event) :
    ∀ (j start : Nat), e ∈ loopTrace body ph t start j → e = body ∨ ∃ r, e = Event.millis ph r := by
  intro j
  induction j with
  | zero => intro start h; simp [loopTrace] at h
  | succ j ih =>
    intro start h
    rw [loopTrace.eq_2 body ph t start j] at h
    simp only [List.mem_append, List.mem_replicate, List.mem_singleton] at h
    rcases h with (⟨_, h⟩ | h) | h
    · exact Or.inl h
    · exact Or.inr ⟨_, h⟩
    · exact ih _ h

theorem count_timed_loopTrace_primary (t : Nat → Int) :
    ∀ (j start : Nat),
      (loopTrace Event.timed Phase.primary t start j).count Event.timed = Batch * j := by
  intro j
  induction j with
  | zero => intro start; simp [loopTrace]
  | succ j ih =>
    intro start
    rw [loopTrace.eq_2 Event.timed Phase.primary t start j]
    simp only [List.count_append, List.count_replicate_self, ih]
    simp [List.count_cons, Nat.mul_succ]
    omega

theorem afterPrimary_none (c : Case) (tp ts : Nat → Int) (fuel : Nat) (s : LoopState)
    (h : sayRate s.n (tp s.reads) = none) :
    afterPrimary c tp ts fuel s =
      ⟨s.trace ++ [Event.getLastError, Event.millis Phase.primary (tp s.reads),
        Event.say Phase.primary s.n (tp s.reads) c.name], Status.divByZero⟩ := by
  simp only [afterPrimary, h]

theorem afterPrimary_some (c : Case) (tp ts : Nat → Int) (fuel : Nat) (s : LoopState) (r : Nat)
    (h : sayRate s.n (tp s.reads) = some r) :
    afterPrimary c tp ts fuel s =
      secondaryPhase c ts fuel
        (s.trace ++ [Event.getLastError, Event.millis Phase.primary (tp s.reads),
          Event.say Phase.primary s.n (tp s.reads) c.name] ++
          expectationCheck c.name s.n (tp s.reads) c.expectationTimeMillis c.expectation) := by
  simp only [afterPrimary, h]

theorem secondaryPhase_skip (c : Case) (ts : Nat → Int) (fuel : Nat) (tr : List Event)
    (h : c.timed2 = none) :
    secondaryPhase c ts fuel tr = ⟨tr ++ [Event.timed2], Status.done⟩ := by
  simp only [secondaryPhase, h]

theorem secondaryPhase_outOfFuel (c : Case) (ts : Nat → Int) (fuel : Nat) (tr : List Event)
    (name2 : String) (h : c.timed2 = some name2)
    (hl : secondaryLoop c.howLongMillis ts fuel
      ⟨0, 0, tr ++ [Event.timed2, Event.statsReset, Event.timerStart Phase.secondary]⟩ = none) :
    secondaryPhase c ts fuel tr =
      ⟨tr ++ [Event.timed2, Event.statsReset, Event.timerStart Phase.secondary],
        Status.outOfFuel⟩ := by
  simp only [secondaryPhase, h, hl]

theorem secondaryPhase_loop (c : Case) (ts : Nat → Int) (fuel : Nat) (tr : List Event)
    (name2 : String) (s : LoopState) (h : c.timed2 = some name2)
    (hl : secondaryLoop c.howLongMillis ts fuel
      ⟨0, 0, tr ++ [Event.timed2, Event.statsReset, Event.timerStart Phase.secondary]⟩ = some s) :
    secondaryPhase c ts fuel tr =
      ⟨s.trace ++ [Event.millis Phase.secondary (ts s.reads),
          Event.say Phase.secondary s.n (ts s.reads) name2],
        if sayRate s.n (ts s.reads) = none then Status.divByZero else Status.done⟩ := by
  simp only [secondaryPhase, h, hl]
  cases sayRate s.n (ts s.reads) <;> simp

/-- The second phase only appends events of the second phase. -/
theorem secondaryPhase_trace (c : Case) (ts : Nat → Int) (fuel : Nat) (tr : List Event) :
    ∃ rest, (secondaryPhase c ts fuel tr).trace = tr ++ rest ∧
      ∀ e ∈ rest, e.isSecondary = true := by
  cases h2 : c.timed2 with
  | none =>
    rw [secondaryPhase_skip c ts fuel tr h2]
    exact ⟨[Event.timed2], rfl, by simp [Event.isSecondary]⟩
  | some name2 =>
    cases hl : secondaryLoop c.howLongMillis ts fuel
        ⟨0, 0, tr ++ [Event.timed2, Event.statsReset, Event.timerStart Phase.secondary]⟩ with
    | none =>
      rw [secondaryPhase_outOfFuel c ts fuel tr name2 h2 hl]
      exact ⟨[Event.timed2, Event.statsReset, Event.timerStart Phase.secondary], rfl,
        by simp [Event.isSecondary]⟩
    | some s =>
      rw [secondaryPhase_loop c ts fuel tr name2 s h2 hl]
      obtain ⟨j, _, _, _, rfl⟩ := batchLoop_some _ _ _ _ _ _ _ hl
      refine ⟨[Event.timed2, Event.statsReset, Event.timerStart Phase.secondary] ++
        loopTrace Event.timed2 Phase.secondary ts 0 (j + 1) ++
        [Event.millis Phase.secondary (ts (0 + (j + 1))),
         Event.say Phase.secondary (wrapU64 (0 + Batch * (j + 1))) (ts (0 + (j + 1))) name2],
        ?_, ?_⟩
      · simp [List.append_assoc]
      · intro e he
        simp only [List.mem_append, List.mem_cons, List.mem_singleton, List.not_mem_nil,
          or_false] at he
        rcases he with ((he | he | he) | he) | he | he
        · subst he; rfl
        · subst he; rfl
        · subst he; rfl
        · rcases mem_loopTrace _ _ _ _ _ _ he with h | ⟨r, h⟩ <;> subst h <;> rfl
        · subst he; rfl
        · subst he; rfl

theorem expectationCheck_mem (name : String) (n : Nat) (ms etm : Int) (e : Nat) (x : Event)
    (h : x ∈ expectationCheck name n ms etm e) :
    x = Event.warnTime name etm ∨ x = Event.warnOps name n e := by
  unfold expectationCheck at h
  split_ifs at h <;> simp at h <;> simp [h]

theorem isLate_of_isSecondary (e : Event) (h : e.isSecondary = true) : e.isLate = true := by
  simp [Event.isLate, h]

theorem not_isLate_timed : Event.timed.isLate = false := rfl

theorem not_isLate_post : Event.post.isLate = false := rfl

theorem not_isLate_millis_primary (r : Int) : (Event.millis Phase.primary r).isLate = false := rfl

theorem not_isLate_say_primary (n : Nat) (ms : Int) (s : String) :
    (Event.say Phase.primary n ms s).isLate = false := rfl

theorem not_mem_of_not_isLate (x : Event) (hx : x.isLate = false) (l : List Event)
    (h : ∀ e ∈ l, e.isLate = true) : x ∉ l := by
  intro hm
  have := h x hm
  rw [hx] at this
  cases this

/-- What follows the primary timing starts with the completion barrier,
the final reading and the call of `say`; everything after that is a warning
of the expectation check or an event of the second phase. -/
theorem afterPrimary_trace (c : Case) (tp ts : Nat → Int) (fuel : Nat) (s : LoopState) :
    ∃ rest, (afterPrimary c tp ts fuel s).trace = s.trace ++
        [Event.getLastError, Event.millis Phase.primary (tp s.reads),
         Event.say Phase.primary s.n (tp s.reads) c.name] ++ rest ∧
      ∀ e ∈ rest, e.isLate = true := by
  cases hr : sayRate s.n (tp s.reads) with
  | none =>
    rw [afterPrimary_none c tp ts fuel s hr]
    exact ⟨[], by simp, by simp⟩
  | some r =>
    rw [afterPrimary_some c tp ts fuel s r hr]
    obtain ⟨rest, hrest, hsec⟩ := secondaryPhase_trace c ts fuel
      (s.trace ++ [Event.getLastError, Event.millis Phase.primary (tp s.reads),
         Event.say Phase.primary s.n (tp s.reads) c.name] ++
        expectationCheck c.name s.n (tp s.reads) c.expectationTimeMillis c.expectation)
    refine ⟨expectationCheck c.name s.n (tp s.reads) c.expectationTimeMillis c.expectation ++ rest,
      by rw [hrest]; simp [List.append_assoc], ?_⟩
    intro e hm
    rcases List.mem_append.mp hm with h | h
    · rcases expectationCheck_mem _ _ _ _ _ _ h with h | h <;> subst h <;> rfl
    · exact isLate_of_isSecondary e (hsec _ h)

/-- The primary timing with a non-zero budget `D`, when reading `j` is the
first that is `≥ D` and the fuel exceeds `j`. -/
theorem primaryPhase_of_first (c : Case) (tp : Nat → Int) (j fuel : Nat)
    (hD : c.howLongMillis ≠ 0) (hj : FirstReadingAtLeast c.howLongMillis tp j) (hf : j < fuel) :
    primaryPhase c tp fuel =
      some ⟨wrapU64 (Batch * (j + 1)), j + 1,
        setupTrace c ++ loopTrace Event.timed Phase.primary tp 0 (j + 1)⟩ := by
  unfold primaryPhase primaryLoop
  rw [if_neg hD]
  have := batchLoop_of_firstStop Event.timed Phase.primary
    (fun r => !decide (r < c.howLongMillis)) tp j fuel ⟨0, 0, setupTrace c⟩
    (by simpa using hj.1) (fun i hi => by simpa using hj.2 i hi) hf
  simpa using this

/-- The primary timing does not end while every reading is below `D`. -/
theorem primaryPhase_none (c : Case) (tp : Nat → Int) (fuel : Nat)
    (hD : c.howLongMillis ≠ 0) (h : ∀ i < fuel, tp i < c.howLongMillis) :
    primaryPhase c tp fuel = none := by
  unfold primaryPhase primaryLoop
  rw [if_neg hD]
  exact batchLoop_none _ _ _ _ _ _ (fun i hi => by simpa using h i hi)

theorem count_timed_setupTrace (c : Case) : (setupTrace c).count Event.timed = 0 := by
  simp [setupTrace, List.count_cons]

/-- Shape of a run whose primary timing is the batching loop. -/
theorem run_batched (c : Case) (tp ts : Nat → Int) (j fuel : Nat)
    (hD : c.howLongMillis ≠ 0) (hj : FirstReadingAtLeast c.howLongMillis tp j) (hf : j < fuel) :
    ∃ rest, (run c tp ts fuel).trace =
        setupTrace c ++ loopTrace Event.timed Phase.primary tp 0 (j + 1) ++
          [Event.getLastError, Event.millis Phase.primary (tp (j + 1)),
           Event.say Phase.primary (wrapU64 (Batch * (j + 1))) (tp (j + 1)) c.name] ++ rest ∧
      ∀ e ∈ rest, e.isLate = true := by
  unfold run
  rw [primaryPhase_of_first c tp j fuel hD hj hf]
  exact afterPrimary_trace c tp ts fuel _

/-- Every result of the primary timing: the single shot, or the batching
loop left at the first reading that is `≥ D`. -/
theorem primaryPhase_some (c : Case) (tp : Nat → Int) (fuel : Nat) (s : LoopState)
    (h : primaryPhase c tp fuel = some s) :
    (c.howLongMillis = 0 ∧ s = ⟨0, 0, setupTrace c ++ [Event.timed]⟩) ∨
    (c.howLongMillis ≠ 0 ∧ ∃ j, j < fuel ∧ FirstReadingAtLeast c.howLongMillis tp j ∧
      s = ⟨wrapU64 (Batch * (j + 1)), j + 1,
        setupTrace c ++ loopTrace Event.timed Phase.primary tp 0 (j + 1)⟩) := by
  unfold primaryPhase at h
  by_cases h0 : c.howLongMillis = 0
  · rw [if_pos h0] at h
    exact Or.inl ⟨h0, (Option.some.inj h).symm⟩
  · rw [if_neg h0] at h
    obtain ⟨j, hj, hs, hlt, rfl⟩ := batchLoop_some _ _ _ _ _ _ _ h
    refine Or.inr ⟨h0, j, hj, ⟨by simpa using hs, fun i hi => by simpa using hlt i hi⟩, ?_⟩
    simp

/-- Shape of a single-shot run. -/
theorem run_single (c : Case) (tp ts : Nat → Int) (fuel : Nat) (h0 : c.howLongMillis = 0) :
    ∃ rest, (run c tp ts fuel).trace =
        setupTrace c ++ [Event.timed] ++
          [Event.getLastError, Event.millis Phase.primary (tp 0),
           Event.say Phase.primary 0 (tp 0) c.name] ++ rest ∧
      ∀ e ∈ rest, e.isLate = true := by
  unfold run primaryPhase
  rw [if_pos h0]
  exact afterPrimary_trace c tp ts fuel ⟨0, 0, setupTrace c ++ [Event.timed]⟩

theorem post_not_mem_setupTrace (c : Case) : Event.post ∉ setupTrace c := by
  simp [setupTrace]

theorem post_not_mem_loopTrace (t : Nat → Int) (start j : Nat) :
    Event.post ∉ loopTrace Event.timed Phase.primary t start j := by
  intro h
  rcases mem_loopTrace _ _ _ _ _ _ h with h | ⟨r, h⟩ <;> cases h

/-! ## The primary phase -/

/-- C1 (amended): for a case with budget `D > 0`, when reading `j` of the
timer is the first one that is `≥ D` (so `j + 1` batches are needed) and
the fuel allows `j + 1` batches, the run consists of the setup, `j + 1`
batches of exactly 50 calls of `timed()` each followed by one timer
reading, then the completion barrier, the final reading and the call of
`say`, with no call of `timed()` and no reading of that timer afterwards;
`timed()` is called `50 * (j + 1)` times in all; the count handed
to `say` is `50 * (j + 1)` reduced modulo `2 ^ 64`, which is
`50 * (j + 1)`, a positive multiple of 50, when that is below `2 ^ 64`;
and with fuel for at most `j` batches the loop does not stop. -/
theorem primary_batches (c : Case) (tp ts : Nat → Int) (j fuel : Nat)
    (hD : 0 < c.howLongMillis) (hj : FirstReadingAtLeast c.howLongMillis tp j) (hf : j < fuel) :
    (∃ rest, (run c tp ts fuel).trace =
        setupTrace c ++ loopTrace Event.timed Phase.primary tp 0 (j + 1) ++
          [Event.getLastError, Event.millis Phase.primary (tp (j + 1)),
           Event.say Phase.primary ((50 * (j + 1)) % 2 ^ 64) (tp (j + 1)) c.name] ++ rest ∧
        Event.timed ∉ rest ∧ (∀ r, Event.millis Phase.primary r ∉ rest)) ∧
    (run c tp ts fuel).trace.count Event.timed = 50 * (j + 1) ∧
    (50 * (j + 1) < 2 ^ 64 →
      (50 * (j + 1)) % 2 ^ 64 = 50 * (j + 1) ∧ 0 < (50 * (j + 1)) % 2 ^ 64) ∧
    (∀ f, f ≤ j → run c tp ts f = ⟨setupTrace c, Status.outOfFuel⟩) := by
  have hne : c.howLongMillis ≠ 0 := by omega
  obtain ⟨rest, hrest, hlate⟩ := run_batched c tp ts j fuel hne hj hf
  have hnt : Event.timed ∉ rest := not_mem_of_not_isLate _ not_isLate_timed _ hlate
  refine ⟨⟨rest, by simpa [wrapU64, Batch] using hrest, hnt,
    fun r => not_mem_of_not_isLate _ (not_isLate_millis_primary r) _ hlate⟩, ?_, ?_, ?_⟩
  · rw [hrest]
    simp only [List.count_append, count_timed_setupTrace, count_timed_loopTrace_primary,
      List.count_eq_zero_of_not_mem hnt]
    simp [List.count_cons, Batch]
  · intro h
    rw [Nat.mod_eq_of_lt h]
    exact ⟨rfl, by omega⟩
  · intro f hfj
    unfold run
    rw [primaryPhase_none c tp f hne (fun i hi => hj.2 i (by omega))]

/-- Witness for `primary_batches`: the case `InsertDup` (budget 5000 ms)
with a timer that advances 3000 ms per batch; the second reading is the
first one that is `≥ 5000`. -/
theorem primary_batches_witness :
    (0 : Int) < insertDup.howLongMillis ∧
    FirstReadingAtLeast insertDup.howLongMillis (fun i => 3000 * (i + 1)) 1 ∧
    (run insertDup (fun i => 3000 * (i + 1)) (fun _ => 0) 2).trace.count Event.timed = 100 :=
  ⟨by decide, by decide,
    (primary_batches insertDup (fun i => 3000 * (i + 1)) (fun _ => 0) 1 2
      (by decide) (by decide) (by decide)).2.1⟩

/-- Counterexample to C1 as stated: with budget `D = 1` and a timer whose
first reading `≥ 1` is reading number `2 ^ 63 - 1` (the boundary of batch
`k = 2 ^ 63`), `timed()` is called `50 * 2 ^ 63` times but the count handed
to `say` is `0`, which is not `50 * k` and not positive. -/
theorem primary_count_wraps :
    (0 : Int) < wrapCase.howLongMillis ∧
    FirstReadingAtLeast wrapCase.howLongMillis wrapTimer (2 ^ 63 - 1) ∧
    Event.say Phase.primary 0 1 "wrap" ∈ (run wrapCase wrapTimer wrapTimer (2 ^ 63)).trace ∧
    (0 : Nat) ≠ 50 * 2 ^ 63 := by
  have hj : FirstReadingAtLeast wrapCase.howLongMillis wrapTimer (2 ^ 63 - 1) := by
    refine ⟨by simp [wrapCase, wrapTimer], ?_⟩
    intro i hi
    have : i + 1 < 2 ^ 63 := by omega
    show (if i + 1 < 2 ^ 63 then (0 : Int) else 1) < 1
    rw [if_pos this]
    decide
  refine ⟨by decide, hj, ?_, by norm_num⟩
  obtain ⟨rest, hrest, _⟩ :=
    run_batched wrapCase wrapTimer wrapTimer (2 ^ 63 - 1) (2 ^ 63) (by decide) hj (by norm_num)
  rw [hrest]
  have h1 : wrapU64 (Batch * (2 ^ 63 - 1 + 1)) = 0 := by
    simp [wrapU64, Batch]
  have h2 : wrapTimer (2 ^ 63 - 1 + 1) = 1 := by
    simp [wrapTimer]
  rw [h1, h2]
  simp [wrapCase]

/-- C2: for a case with `howLongMillis() = 0`, for every timer and every
fuel, the run consists of the setup (ending with the start of the timer),
one call of `timed()`, the completion barrier, one timer reading (the
first of that timer) and the call of `say` with that reading as elapsed
time; `timed()` is called exactly once in the whole run. -/
theorem single_shot_once (c : Case) (tp ts : Nat → Int) (fuel : Nat)
    (h0 : c.howLongMillis = 0) :
    (∃ rest, (run c tp ts fuel).trace =
        [Event.dropCollection ("perftest." ++ c.name), Event.prep, Event.statsReset,
          Event.timerStart Phase.primary, Event.timed, Event.getLastError,
          Event.millis Phase.primary (tp 0), Event.say Phase.primary 0 (tp 0) c.name] ++ rest ∧
        Event.timed ∉ rest ∧ (∀ r, Event.millis Phase.primary r ∉ rest)) ∧
    (run c tp ts fuel).trace.count Event.timed = 1 := by
  obtain ⟨rest, hrest, hlate⟩ := run_single c tp ts fuel h0
  have hnt : Event.timed ∉ rest := not_mem_of_not_isLate _ not_isLate_timed _ hlate
  refine ⟨⟨rest, by simpa [setupTrace] using hrest, hnt,
    fun r => not_mem_of_not_isLate _ (not_isLate_millis_primary r) _ hlate⟩, ?_⟩
  rw [hrest]
  simp only [List.count_append, count_timed_setupTrace, List.count_eq_zero_of_not_mem hnt]
  simp [List.count_cons]

/-- Witness for `single_shot_once`: the case `ChecksumTest`, whose
`howLongMillis()` is 0, with a timer that reads 120 ms. -/
theorem single_shot_once_witness :
    checksumTest.howLongMillis = 0 ∧
    (run checksumTest (fun _ => 120) (fun _ => 0) 0).trace.count Event.timed = 1 :=
  ⟨rfl, (single_shot_once checksumTest (fun _ => 120) (fun _ => 0) 0 rfl).2⟩


/-! ## Hooks that are never called, and the division of `say` -/

theorem post_not_mem_run (c : Case) (tp ts : Nat → Int) (fuel : Nat) :
    Event.post ∉ (run c tp ts fuel).trace := by
  unfold run
  cases hp : primaryPhase c tp fuel with
  | none => exact post_not_mem_setupTrace c
  | some s =>
    simp only []
    obtain ⟨rest, hrest, hlate⟩ := afterPrimary_trace c tp ts fuel s
    have hr : Event.post ∉ rest := not_mem_of_not_isLate _ not_isLate_post _ hlate
    rw [hrest]
    have hs : Event.post ∉ s.trace := by
      rcases primaryPhase_some c tp fuel s hp with ⟨_, rfl⟩ | ⟨_, j, _, _, rfl⟩
      · simp [setupTrace]
      · intro h
        rcases List.mem_append.mp h with h | h
        · exact post_not_mem_setupTrace c h
        · exact post_not_mem_loopTrace tp 0 (j + 1) h
    simp [hs, hr]

/-- C4 (code evaluated): in every execution of `run`, whatever the case,
the timers and the fuel, the hook `post()` is not called at all, while
`prep()` is called; for the case `InsertDup` with a timer advancing 3000 ms
per batch the run completes with 100 calls of `timed()` and no call of
`post()`. -/
theorem post_never_called (c : Case) (tp ts : Nat → Int) (fuel : Nat) :
    (run c tp ts fuel).trace.count Event.post = 0 ∧
    Event.prep ∈ (run c tp ts fuel).trace ∧
    (run insertDup (fun i => 3000 * (i + 1)) (fun _ => 0) 2).status = Status.done ∧
    (run insertDup (fun i => 3000 * (i + 1)) (fun _ => 0) 2).trace.count Event.timed = 100 ∧
    (run insertDup (fun i => 3000 * (i + 1)) (fun _ => 0) 2).trace.count Event.post = 0 := by
  refine ⟨List.count_eq_zero_of_not_mem (post_not_mem_run c tp ts fuel), ?_, by decide,
    by decide, List.count_eq_zero_of_not_mem (post_not_mem_run _ _ _ _)⟩
  unfold run
  cases hp : primaryPhase c tp fuel with
  | none => simp [setupTrace]
  | some s =>
    simp only []
    obtain ⟨rest, hrest, _⟩ := afterPrimary_trace c tp ts fuel s
    rw [hrest]
    rcases primaryPhase_some c tp fuel s hp with ⟨_, rfl⟩ | ⟨_, j, _, _, rfl⟩ <;>
      simp [setupTrace]

/-- C5 (code evaluated): for a single-shot case (`howLongMillis() = 0`)
whose timer reads 0 ms after the one call of `timed()`, `run` calls `say`
with `n = 0` and `ms = 0`, and the division `n*1000/ms` of `say` is
reached with `ms = 0`: the run ends there, with no defined result. -/
theorem single_shot_zero_ms_divides_by_zero (c : Case) (tp ts : Nat → Int) (fuel : Nat)
    (h0 : c.howLongMillis = 0) (ht : tp 0 = 0) :
    sayRate 0 0 = none ∧
    run c tp ts fuel =
      ⟨setupTrace c ++ [Event.timed, Event.getLastError, Event.millis Phase.primary 0,
        Event.say Phase.primary 0 0 c.name], Status.divByZero⟩ := by
  refine ⟨rfl, ?_⟩
  unfold run primaryPhase
  rw [if_pos h0]
  simp only []
  rw [afterPrimary_none c tp ts fuel _ (by simp [ht, sayRate])]
  simp [ht]

/-- Witness for `single_shot_zero_ms_divides_by_zero`: the case
`ChecksumTest` with a timer that reads 0 ms. -/
theorem single_shot_zero_ms_witness :
    checksumTest.howLongMillis = 0 ∧
    (run checksumTest (fun _ => 0) (fun _ => 0) 0).status = Status.divByZero :=
  ⟨rfl, by
    rw [(single_shot_zero_ms_divides_by_zero checksumTest (fun _ => 0) (fun _ => 0) 0 rfl rfl).2]⟩

/-! ## Bounds on the elapsed time handed to `say` -/

theorem sayRate_ne_none (n : Nat) (ms : Int) (h : ms ≠ 0) : sayRate n ms ≠ none := by
  simp [sayRate, h]

theorem sayOk_of_not_say (D : Int) (e : Event) (h : ∀ ph n ms s, e ≠ Event.say ph n ms s) :
    e.sayBound D ∧ e.divisorOk D := by
  cases e <;> first
    | exact ⟨trivial, trivial⟩
    | exact absurd rfl (h _ _ _ _)

theorem sayOk_of_isSecondary_loop (D : Int) (ts : Nat → Int) (start j : Nat) (e : Event)
    (h : e ∈ loopTrace Event.timed2 Phase.secondary ts start j) :
    e.sayBound D ∧ e.divisorOk D := by
  rcases mem_loopTrace _ _ _ _ _ _ h with h | ⟨r, h⟩ <;> subst h <;> exact ⟨trivial, trivial⟩

theorem sayOk_of_primary_loop (D : Int) (tp : Nat → Int) (start j : Nat) (e : Event)
    (h : e ∈ loopTrace Event.timed Phase.primary tp start j) :
    e.sayBound D ∧ e.divisorOk D := by
  rcases mem_loopTrace _ _ _ _ _ _ h with h | ⟨r, h⟩ <;> subst h <;> exact ⟨trivial, trivial⟩

/-- The second phase with a non-decreasing timer and `D ≥ 0`: its call of
`say` gets `ms > D`, and its division is defined. -/
theorem secondaryPhase_sayOk (c : Case) (ts : Nat → Int) (fuel : Nat) (tr : List Event)
    (hD : 0 ≤ c.howLongMillis) (hts : Monotone ts)
    (htr : ∀ e ∈ tr, e.sayBound c.howLongMillis ∧ e.divisorOk c.howLongMillis) :
    (∀ e ∈ (secondaryPhase c ts fuel tr).trace,
        e.sayBound c.howLongMillis ∧ e.divisorOk c.howLongMillis) ∧
    (secondaryPhase c ts fuel tr).status ≠ Status.divByZero := by
  cases h2 : c.timed2 with
  | none =>
    rw [secondaryPhase_skip c ts fuel tr h2]
    refine ⟨?_, by simp⟩
    intro e he
    rcases List.mem_append.mp he with h | h
    · exact htr e h
    · simp only [List.mem_singleton] at h; subst h; exact ⟨trivial, trivial⟩
  | some name2 =>
    cases hl : secondaryLoop c.howLongMillis ts fuel
        ⟨0, 0, tr ++ [Event.timed2, Event.statsReset, Event.timerStart Phase.secondary]⟩ with
    | none =>
      rw [secondaryPhase_outOfFuel c ts fuel tr name2 h2 hl]
      refine ⟨?_, by simp⟩
      intro e he
      rcases List.mem_append.mp he with h | h
      · exact htr e h
      · simp only [List.mem_cons, List.mem_singleton, List.not_mem_nil, or_false] at h
        rcases h with h | h | h <;> subst h <;> exact ⟨trivial, trivial⟩
    | some s =>
      rw [secondaryPhase_loop c ts fuel tr name2 s h2 hl]
      obtain ⟨j, _, hs, _, rfl⟩ := batchLoop_some _ _ _ _ _ _ _ hl
      have hgt : c.howLongMillis < ts (0 + j) := by simpa using hs
      have hmono : ts (0 + j) ≤ ts (0 + (j + 1)) := hts (by omega)
      have hms : c.howLongMillis < ts (0 + (j + 1)) := lt_of_lt_of_le hgt hmono
      have hne : ts (0 + (j + 1)) ≠ 0 := by omega
      have hrate := sayRate_ne_none (wrapU64 (0 + Batch * (j + 1))) _ hne
      refine ⟨?_, by rw [if_neg hrate]; simp⟩
      intro e he
      simp only [List.mem_append, List.mem_cons, List.mem_singleton, List.not_mem_nil,
        or_false] at he
      rcases he with ((he | he | he | he) | he) | he | he
      · exact htr e he
      · subst he; exact ⟨trivial, trivial⟩
      · subst he; exact ⟨trivial, trivial⟩
      · subst he; exact ⟨trivial, trivial⟩
      · exact sayOk_of_isSecondary_loop _ _ _ _ _ he
      · subst he; exact ⟨trivial, trivial⟩
      · subst he; exact ⟨hms, hrate⟩

/-- What follows the primary timing, with a non-decreasing second timer,
`D ≥ 0` and a final primary reading that is `≥ D` when `D ≠ 0`. -/
theorem afterPrimary_sayOk (c : Case) (tp ts : Nat → Int) (fuel : Nat) (s : LoopState)
    (hD : 0 ≤ c.howLongMillis) (hts : Monotone ts)
    (hs : ∀ e ∈ s.trace, e.sayBound c.howLongMillis ∧ e.divisorOk c.howLongMillis)
    (hms : c.howLongMillis ≠ 0 → c.howLongMillis ≤ tp s.reads) :
    (∀ e ∈ (afterPrimary c tp ts fuel s).trace,
        e.sayBound c.howLongMillis ∧ e.divisorOk c.howLongMillis) ∧
    (0 < c.howLongMillis → (afterPrimary c tp ts fuel s).status ≠ Status.divByZero) := by
  have hsay : (Event.say Phase.primary s.n (tp s.reads) c.name).sayBound c.howLongMillis ∧
      (Event.say Phase.primary s.n (tp s.reads) c.name).divisorOk c.howLongMillis := by
    refine ⟨fun h => hms (by omega), fun h => ?_⟩
    have := hms h
    exact sayRate_ne_none _ _ (by omega)
  have hfirst : ∀ e ∈ s.trace ++ [Event.getLastError, Event.millis Phase.primary (tp s.reads),
      Event.say Phase.primary s.n (tp s.reads) c.name],
      e.sayBound c.howLongMillis ∧ e.divisorOk c.howLongMillis := by
    intro e he
    simp only [List.mem_append, List.mem_cons, List.mem_singleton, List.not_mem_nil,
      or_false] at he
    rcases he with he | he | he | he
    · exact hs e he
    · subst he; exact ⟨trivial, trivial⟩
    · subst he; exact ⟨trivial, trivial⟩
    · subst he; exact hsay
  cases hr : sayRate s.n (tp s.reads) with
  | none =>
    rw [afterPrimary_none c tp ts fuel s hr]
    refine ⟨hfirst, fun hpos => ?_⟩
    exact absurd hr (hsay.2 (by omega))
  | some r =>
    rw [afterPrimary_some c tp ts fuel s r hr]
    have := secondaryPhase_sayOk c ts fuel (s.trace ++
      [Event.getLastError, Event.millis Phase.primary (tp s.reads),
        Event.say Phase.primary s.n (tp s.reads) c.name] ++
      expectationCheck c.name s.n (tp s.reads) c.expectationTimeMillis c.expectation) hD hts (by
        intro e he
        rcases List.mem_append.mp he with h | h
        · exact hfirst e h
        · rcases expectationCheck_mem _ _ _ _ _ _ h with h | h <;> subst h <;>
            exact ⟨trivial, trivial⟩)
    exact ⟨this.1, fun _ => this.2⟩

theorem setupTrace_sayOk (c : Case) (D : Int) :
    ∀ e ∈ setupTrace c, e.sayBound D ∧ e.divisorOk D := by
  intro e he
  simp only [setupTrace, List.mem_cons, List.mem_singleton, List.not_mem_nil, or_false] at he
  rcases he with he | he | he | he <;> subst he <;> exact ⟨trivial, trivial⟩

/-- C10: with non-decreasing timers and `howLongMillis() = D ≥ 0`, every
call of `say` made by `run` gets an elapsed value `ms` with `ms ≥ D` in
the primary phase when `D > 0` and `ms > D` in the second phase; the
division `n*1000/ms` is defined at every call of `say` except possibly
the primary call of a single-shot case; so a run with `D > 0` never ends
in a division by zero. -/
theorem say_elapsed_bounds (c : Case) (tp ts : Nat → Int) (fuel : Nat)
    (hD : 0 ≤ c.howLongMillis) (htp : Monotone tp) (hts : Monotone ts) :
    (∀ e ∈ (run c tp ts fuel).trace,
        e.sayBound c.howLongMillis ∧ e.divisorOk c.howLongMillis) ∧
    (0 < c.howLongMillis → (run c tp ts fuel).status ≠ Status.divByZero) := by
  unfold run
  cases hp : primaryPhase c tp fuel with
  | none => exact ⟨setupTrace_sayOk c _, fun _ => by simp⟩
  | some s =>
    simp only []
    rcases primaryPhase_some c tp fuel s hp with ⟨h0, rfl⟩ | ⟨hne, j, _, hj, rfl⟩
    · apply afterPrimary_sayOk c tp ts fuel _ hD hts
      · intro e he
        rcases List.mem_append.mp he with h | h
        · exact setupTrace_sayOk c _ e h
        · simp only [List.mem_singleton] at h; subst h; exact ⟨trivial, trivial⟩
      · intro h; exact absurd h0 h
    · apply afterPrimary_sayOk c tp ts fuel _ hD hts
      · intro e he
        rcases List.mem_append.mp he with h | h
        · exact setupTrace_sayOk c _ e h
        · exact sayOk_of_primary_loop _ _ _ _ _ h
      · intro _
        exact le_trans hj.1 (htp (Nat.le_succ j))

theorem monotone_steps : Monotone (fun i : Nat => (3000 : Int) * (i + 1)) := by
  intro a b h
  have : (a : Int) ≤ b := by exact_mod_cast h
  simp only
  omega

/-- Witness for `say_elapsed_bounds`: the case `Insert1` (budget 5000 ms,
with a second phase) and timers that advance 3000 ms per reading; the run
completes, both calls of `say` are in the trace with 9000 ms, and every
event of the trace satisfies the bounds. -/
theorem say_elapsed_bounds_witness :
    (0 : Int) ≤ insert1.howLongMillis ∧
    Monotone (fun i : Nat => (3000 : Int) * (i + 1)) ∧
    Event.say Phase.primary 100 9000 "insert-simple" ∈
      (run insert1 (fun i => 3000 * (i + 1)) (fun i => 3000 * (i + 1)) 2).trace ∧
    Event.say Phase.secondary 100 9000 "findOne_by_id" ∈
      (run insert1 (fun i => 3000 * (i + 1)) (fun i => 3000 * (i + 1)) 2).trace ∧
    (run insert1 (fun i => 3000 * (i + 1)) (fun i => 3000 * (i + 1)) 2).status = Status.done ∧
    (∀ e ∈ (run insert1 (fun i => 3000 * (i + 1)) (fun i => 3000 * (i + 1)) 2).trace,
      e.sayBound insert1.howLongMillis ∧ e.divisorOk insert1.howLongMillis) :=
  ⟨by decide, monotone_steps,
    by set_option maxRecDepth 100000 in decide,
    by set_option maxRecDepth 100000 in decide,
    by set_option maxRecDepth 100000 in decide,
    (say_elapsed_bounds insert1 (fun i => 3000 * (i + 1)) (fun i => 3000 * (i + 1)) 2
      (by decide) monotone_steps monotone_steps).1⟩

/-! ## The expectation check -/

theorem batchLoop_trace_indep (body : Event) (ph : Phase) (stop : Int → Bool) (t : Nat → Int) :
    ∀ (fuel n r : Nat) (tr1 tr2 : List Event),
      (batchLoop body ph stop t fuel ⟨n, r, tr1⟩).map (fun s => (s.n, s.reads)) =
      (batchLoop body ph stop t fuel ⟨n, r, tr2⟩).map (fun s => (s.n, s.reads)) := by
  intro fuel
  induction fuel with
  | zero => intro n r tr1 tr2; rfl
  | succ f ih =>
    intro n r tr1 tr2
    rw [batchLoop_step, batchLoop_step]
    by_cases h : stop (t r) = true
    · simp [h]
    · simp only [h, Bool.false_eq_true, if_false]
      exact ih _ _ _ _

theorem secondaryPhase_status_eq (c1 c2 : Case) (ts : Nat → Int) (fuel : Nat)
    (tr1 tr2 : List Event) (h2 : c1.timed2 = c2.timed2)
    (hD : c1.howLongMillis = c2.howLongMillis) :
    (secondaryPhase c1 ts fuel tr1).status = (secondaryPhase c2 ts fuel tr2).status := by
  cases ht : c2.timed2 with
  | none =>
    rw [secondaryPhase_skip c1 ts fuel tr1 (h2.trans ht), secondaryPhase_skip c2 ts fuel tr2 ht]
  | some name2 =>
    have hindep := batchLoop_trace_indep Event.timed2 Phase.secondary
      (fun r => decide (r > c2.howLongMillis)) ts fuel 0 0
      (tr1 ++ [Event.timed2, Event.statsReset, Event.timerStart Phase.secondary])
      (tr2 ++ [Event.timed2, Event.statsReset, Event.timerStart Phase.secondary])
    cases hl1 : secondaryLoop c1.howLongMillis ts fuel
        ⟨0, 0, tr1 ++ [Event.timed2, Event.statsReset, Event.timerStart Phase.secondary]⟩ with
    | none =>
      cases hl2 : secondaryLoop c2.howLongMillis ts fuel
          ⟨0, 0, tr2 ++ [Event.timed2, Event.statsReset, Event.timerStart Phase.secondary]⟩ with
      | none =>
        rw [secondaryPhase_outOfFuel c1 ts fuel tr1 name2 (h2.trans ht) hl1,
          secondaryPhase_outOfFuel c2 ts fuel tr2 name2 ht hl2]
      | some s2 =>
        rw [hD] at hl1
        unfold secondaryLoop at hl1 hl2
        rw [hl1, hl2] at hindep
        cases hindep
    | some s1 =>
      cases hl2 : secondaryLoop c2.howLongMillis ts fuel
          ⟨0, 0, tr2 ++ [Event.timed2, Event.statsReset, Event.timerStart Phase.secondary]⟩ with
      | none =>
        rw [hD] at hl1
        unfold secondaryLoop at hl1 hl2
        rw [hl1, hl2] at hindep
        cases hindep
      | some s2 =>
        rw [secondaryPhase_loop c1 ts fuel tr1 name2 s1 (h2.trans ht) hl1,
          secondaryPhase_loop c2 ts fuel tr2 name2 s2 ht hl2]
        rw [hD] at hl1
        unfold secondaryLoop at hl1 hl2
        rw [hl1, hl2] at hindep
        simp only [Option.map_some', Option.some.injEq, Prod.mk.injEq] at hindep
        simp only [hindep.1, hindep.2]

/-- The way a run ends does not depend on the two expectation hooks. -/
theorem run_status_indep (c : Case) (tp ts : Nat → Int) (fuel : Nat) (e : Nat) (etm : Int) :
    (run { c with expectation := e, expectationTimeMillis := etm } tp ts fuel).status =
      (run c tp ts fuel).status := by
  have hp : primaryPhase { c with expectation := e, expectationTimeMillis := etm } tp fuel =
      primaryPhase c tp fuel := rfl
  unfold run
  rw [hp]
  cases primaryPhase c tp fuel with
  | none => rfl
  | some s =>
    simp only []
    cases hr : sayRate s.n (tp s.reads) with
    | none =>
      rw [afterPrimary_none _ tp ts fuel s hr, afterPrimary_none _ tp ts fuel s hr]
    | some r =>
      rw [afterPrimary_some _ tp ts fuel s r hr, afterPrimary_some _ tp ts fuel s r hr]
      exact secondaryPhase_status_eq _ _ ts fuel _ _ rfl rfl

theorem wrapInt32_of_range (x : Int) (h1 : -2 ^ 31 ≤ x) (h2 : x < 2 ^ 31) : wrapInt32 x = x := by
  unfold wrapInt32
  omega

/-- C3: for every operation count `n`, elapsed time `ms`, budget `etm`
with `2*etm` in the range of `int` and floor `e`, the expectation check
prints a warning if and only if (`etm > 0` and `ms > 2*etm`) or
(`etm <= 0` and `n < e`); when `etm > 0` its result does not depend on `n`
and `e`; with `n = 1`, `e = 1000000`, `etm = -1` it prints the
operation-count warning; and the check is advisory: the way a run ends
does not depend on the values of `expectation()` and
`expectationTimeMillis()`, and the case `TLS` with a count of 50 below its
floor of 1000000 is warned about and runs to its normal end. -/
theorem expectation_check_rule (name : String) (n : Nat) (ms etm : Int) (e : Nat)
    (h1 : -2 ^ 31 ≤ 2 * etm) (h2 : 2 * etm < 2 ^ 31) :
    (expectationCheck name n ms etm e ≠ [] ↔
      (0 < etm ∧ 2 * etm < ms) ∨ (etm ≤ 0 ∧ n < e)) ∧
    (0 < etm → ∀ n2 e2, expectationCheck name n2 ms etm e2 = expectationCheck name n ms etm e) ∧
    expectationCheck name 1 ms (-1) 1000000 = [Event.warnOps name 1 1000000] ∧
    (∀ (c : Case) (tp ts : Nat → Int) (fuel : Nat),
      (run { c with expectation := e, expectationTimeMillis := etm } tp ts fuel).status =
        (run c tp ts fuel).status) ∧
    run tls (fun _ => 5000) (fun _ => 0) 1 =
      ⟨setupTrace tls ++ loopTrace Event.timed Phase.primary (fun _ => 5000) 0 1 ++
        [Event.getLastError, Event.millis Phase.primary 5000,
         Event.say Phase.primary 50 5000 "thread-local-storage",
         Event.warnOps "thread-local-storage" 50 1000000, Event.timed2], Status.done⟩ := by
  have hw : wrapInt32 (etm * 2) = 2 * etm := by
    rw [wrapInt32_of_range (etm * 2) (by omega) (by omega)]; ring
  refine ⟨?_, ?_, ?_, fun c tp ts fuel => run_status_indep c tp ts fuel e etm, by decide⟩
  · unfold expectationCheck
    rw [hw]
    by_cases hpos : 0 < etm
    · by_cases hms : 2 * etm < ms <;> simp [hpos, hms]
    · by_cases hn : n < e <;> simp [hpos, hn]
      all_goals omega
  · intro hpos n2 e2
    unfold expectationCheck
    simp [hpos]
  · unfold expectationCheck
    simp

/-- Witness for `expectation_check_rule`: the case `ChecksumTest` (budget
`etm = 200`) with an elapsed time of 450 ms, which is more than `2*200`. -/
theorem expectation_check_rule_witness :
    (-2 ^ 31 : Int) ≤ 2 * 200 ∧ (2 * 200 : Int) < 2 ^ 31 ∧
    (expectationCheck "checksum" 0 450 200 0 ≠ [] ↔
      ((0 : Int) < 200 ∧ (2 * 200 : Int) < 450) ∨ ((200 : Int) ≤ 0 ∧ 0 < 0)) :=
  ⟨by decide, by decide,
    (expectation_check_rule "checksum" 0 450 200 0 (by decide) (by decide)).1⟩

/-! ## The second phase -/

/-- C6 (amended): the second phase is loop-based for every budget `D`
(also `D = 0`) and uses the same batch size 50 and the same `D` as the
primary loop, but it stops at the first batch boundary whose reading is
strictly greater than `D`: when reading `j` of its timer is the first one
that is `> D` and the fuel allows `j + 1` batches, it runs exactly `j + 1`
batches of 50 calls of `timed2()`, each followed by one timer reading, and
hands the count `50 * (j + 1)` (modulo `2 ^ 64`) and the next reading to
`say`; with fuel for at most `j` batches it does not stop; and when no
reading up to `j` equals `D` and `D ≠ 0`, the primary loop stops after
the same number of batches on the same readings. -/
theorem secondary_batches (c : Case) (ts : Nat → Int) (tr : List Event) (name2 : String)
    (j fuel : Nat) (h2 : c.timed2 = some name2)
    (hj : FirstReadingAbove c.howLongMillis ts j) (hf : j < fuel) :
    (secondaryPhase c ts fuel tr).trace =
      tr ++ [Event.timed2, Event.statsReset, Event.timerStart Phase.secondary] ++
        loopTrace Event.timed2 Phase.secondary ts 0 (j + 1) ++
        [Event.millis Phase.secondary (ts (j + 1)),
         Event.say Phase.secondary ((50 * (j + 1)) % 2 ^ 64) (ts (j + 1)) name2] ∧
    (∀ f, f ≤ j → secondaryPhase c ts f tr =
      ⟨tr ++ [Event.timed2, Event.statsReset, Event.timerStart Phase.secondary],
        Status.outOfFuel⟩) ∧
    ((∀ i, i ≤ j → ts i ≠ c.howLongMillis) → c.howLongMillis ≠ 0 →
      primaryPhase c ts fuel =
        some ⟨(50 * (j + 1)) % 2 ^ 64, j + 1,
          setupTrace c ++ loopTrace Event.timed Phase.primary ts 0 (j + 1)⟩) := by
  refine ⟨?_, ?_, ?_⟩
  · have hl := batchLoop_of_firstStop Event.timed2 Phase.secondary
      (fun r => decide (r > c.howLongMillis)) ts j fuel
      ⟨0, 0, tr ++ [Event.timed2, Event.statsReset, Event.timerStart Phase.secondary]⟩
      (by simpa using hj.1) (fun i hi => by simpa using hj.2 i hi) hf
    rw [secondaryPhase_loop c ts fuel tr name2 _ h2 hl]
    simp [wrapU64, Batch]
  · intro f hfj
    have hl := batchLoop_none Event.timed2 Phase.secondary
      (fun r => decide (r > c.howLongMillis)) ts f
      ⟨0, 0, tr ++ [Event.timed2, Event.statsReset, Event.timerStart Phase.secondary]⟩
      (fun i hi => by simpa using hj.2 i (by omega))
    exact secondaryPhase_outOfFuel c ts f tr name2 h2 hl
  · intro hne hD
    have hfirst : FirstReadingAtLeast c.howLongMillis ts j := by
      refine ⟨le_of_lt hj.1, fun i hi => ?_⟩
      exact lt_of_le_of_ne (hj.2 i hi) (hne i (by omega))
    rw [primaryPhase_of_first c ts j fuel hD hfirst hf]
    simp [wrapU64, Batch]

/-- Witness for `secondary_batches`: the case `boundaryCase` (budget 5 ms)
with readings 5, 6, ...: the first reading above 5 is the second one, so
the second phase runs two batches. -/
theorem secondary_batches_witness :
    boundaryCase.timed2 = some "second" ∧
    FirstReadingAbove boundaryCase.howLongMillis boundaryTimer 1 ∧
    (secondaryPhase boundaryCase boundaryTimer 2 []).trace =
      [Event.timed2, Event.statsReset, Event.timerStart Phase.secondary] ++
        loopTrace Event.timed2 Phase.secondary boundaryTimer 0 2 ++
        [Event.millis Phase.secondary 7, Event.say Phase.secondary 100 7 "second"] :=
  ⟨rfl, by decide,
    (secondary_batches boundaryCase boundaryTimer [] "second" 1 2 rfl (by decide)
      (by decide)).1⟩

/-- Counterexample to C6 as stated: with `D = 5 > 0` and the boundary
readings 5, 6, ..., the first boundary reading is already `≥ D`; the
primary loop stops after one batch, but the second loop runs two batches
(100 calls of `timed2()` in the loop, with the call that asks for the name
of the phase 101 in the run) and stops at the reading 6. -/
theorem secondary_not_same_rule :
    (0 : Int) < boundaryCase.howLongMillis ∧
    FirstReadingAtLeast boundaryCase.howLongMillis boundaryTimer 0 ∧
    (primaryLoop 5 boundaryTimer 3 ⟨0, 0, []⟩).map (fun s => (s.n, s.reads)) = some (50, 1) ∧
    (secondaryLoop 5 boundaryTimer 3 ⟨0, 0, []⟩).map (fun s => (s.n, s.reads)) = some (100, 2) ∧
    (run boundaryCase boundaryTimer boundaryTimer 3).status = Status.done ∧
    (run boundaryCase boundaryTimer boundaryTimer 3).trace.count Event.timed = 50 ∧
    (run boundaryCase boundaryTimer boundaryTimer 3).trace.count Event.timed2 = 101 := by
  set_option maxRecDepth 100000 in decide

/-! ## The recording path of `say` -/

/-- C7 (code evaluated): with an `assert` that throws (the exception is
swallowed by the `catch(...)` of `say`), a first call of `say` whose
authentication fails makes no insert but leaves `ok = true` and the
connection object in place; the second call of `say` then inserts a record
on the connection that was never authenticated.  With an `assert` that is
compiled out, already the first call inserts without authentication; with
one that terminates the process the first call does not return.  The
sibling failure paths (no password, failed `connect`) set `ok = false`,
and no later call inserts. -/
theorem insert_after_failed_auth :
    sayPersist AssertKind.throwing authFails ReportState.init =
      some (⟨true, some ⟨false⟩⟩, false) ∧
    sayPersistAll AssertKind.throwing [authFails, authFails] ReportState.init =
      [(false, false), (true, false)] ∧
    sayPersistAll AssertKind.throwing [authFails, allSucceed] ReportState.init =
      [(false, false), (true, false)] ∧
    sayPersistAll AssertKind.disabled [authFails] ReportState.init = [(true, false)] ∧
    sayPersist AssertKind.aborting authFails ReportState.init = none ∧
    sayPersistAll AssertKind.throwing [noPassword, allSucceed] ReportState.init =
      [(false, false), (false, false)] ∧
    sayPersistAll AssertKind.throwing [connectFails, allSucceed] ReportState.init =
      [(false, false), (false, false)] ∧
    sayPersistAll AssertKind.throwing [allSucceed, allSucceed] ReportState.init =
      [(true, true), (true, true)] := by
  decide

/-! ## The console line of `say` -/

theorem intToU64_of_pos (ms : Int) (h0 : 0 < ms) (h1 : ms < 2 ^ 31) : intToU64 ms = ms.toNat := by
  unfold intToU64
  rw [Int.emod_eq_of_lt (by omega) (by omega)]

theorem length_leftField (w : Nat) (fill : Char) (s : List Char) :
    (leftField w fill s).length = max w s.length := by
  simp [leftField]
  omega

theorem length_rightField (w : Nat) (fill : Char) (s : List Char) :
    (rightField w fill s).length = max w s.length := by
  simp [rightField]
  omega

/-- C8: for every case name `s`, operation count `n` and elapsed time
`ms > 0` (an `int`), on a stream whose field width is 0 when `say` is
entered: the rate is `floor((n*1000 mod 2^64) / ms)`, and the text that
`say` appends to the console is, in this order, `"stats "`, the name
left-justified in a field of 33 characters, a blank, the rate in a field
of 8 characters (left-justified), a blank, the elapsed milliseconds
right-justified in a field of 6 characters, `"ms "`, the durability CSV row
if and only if `showDurStats()` is true, and the end of line.  A field of
`w` characters holds `max w (length of the text)` characters. -/
theorem say_console_line (os : OStream) (showDurStats : Bool) (csv s : String) (n : Nat)
    (ms : Int) (hw : os.width = 0) (hms : 0 < ms) (hint : ms < 2 ^ 31) :
    sayRate n ms = some ((n * 1000 % 2 ^ 64) / ms.toNat) ∧
    (∀ rps, (sayConsole os showDurStats csv rps ms s).out =
      os.out ++ "stats ".toList ++ leftField 33 os.fill s.toList ++ [' '] ++
        leftField 8 os.fill (Nat.repr rps).toList ++ [' '] ++
        rightField 6 os.fill (toString ms).toList ++ "ms ".toList ++
        (if showDurStats then csv.toList else []) ++ ['\n']) ∧
    (leftField 33 os.fill s.toList).length = max 33 s.length ∧
    (∀ rps, (leftField 8 os.fill (Nat.repr rps).toList).length = max 8 (Nat.repr rps).length) ∧
    (rightField 6 os.fill (toString ms).toList).length = max 6 (toString ms).length := by
  refine ⟨?_, ?_, length_leftField _ _ _, fun rps => length_leftField _ _ _,
    length_rightField _ _ _⟩
  · have hne : ms ≠ 0 := by omega
    simp [sayRate, hne, intToU64_of_pos ms hms hint, wrapU64]
  · intro rps
    obtain ⟨out, w, adj, fill⟩ := os
    simp only at hw
    subst hw
    cases adj <;> cases showDurStats <;>
      simp [sayConsole, OStream.put, OStream.pad, OStream.setw, OStream.setAdjust,
        OStream.endl, leftField, rightField]

/-- Witness for `say_console_line`: `say(250000, 5000, "insert-simple")`
on a fresh stream, without durability statistics. -/
theorem say_console_line_witness :
    (⟨[], 0, Adjust.right, ' '⟩ : OStream).width = 0 ∧ (0 : Int) < 5000 ∧
    (5000 : Int) < 2 ^ 31 ∧
    sayRate 250000 5000 = some ((250000 * 1000 % 2 ^ 64) / (5000 : Int).toNat) ∧
    (sayConsole ⟨[], 0, Adjust.right, ' '⟩ false "" 50000 5000 "insert-simple").out =
      "stats insert-simple                     50000      5000ms \n".toList :=
  ⟨rfl, by decide, by decide,
    (say_console_line ⟨[], 0, Adjust.right, ' '⟩ false "" "insert-simple" 250000 5000
      rfl (by decide) (by decide)).1,
    by
      rw [(say_console_line ⟨[], 0, Adjust.right, ' '⟩ false "" "insert-simple" 250000 5000
        rfl (by decide) (by decide)).2.1 50000]
      decide⟩

/-! ## The deferred task queue -/

theorem runOps_append {α σ : Type} (handler : σ → α → σ) (a b : List (QueueOp α)) :
    ∀ st : TaskQueue α × σ, runOps handler (a ++ b) st = runOps handler b (runOps handler a st) := by
  induction a with
  | nil => intro st; rfl
  | cons op a ih =>
    intro st
    obtain ⟨q, s⟩ := st
    cases op with
    | defer v => exact ih _
    | invoke => exact ih _

/-- Invariant of the queue: handling what is still queued, after what has
been handled, amounts to handling every item in submission order. -/
theorem runOps_fold {α σ : Type} (handler : σ → α → σ) (ops : List (QueueOp α)) :
    ∀ (q : TaskQueue α) (s : σ),
      (runOps handler ops (q, s)).1.queue.foldl handler (runOps handler ops (q, s)).2 =
        (q.queue ++ deferred ops).foldl handler s := by
  induction ops with
  | nil => intro q s; simp [runOps, deferred]
  | cons op ops ih =>
    intro q s
    cases op with
    | defer v =>
      simp only [runOps, deferred, ih, TaskQueue.defer, List.append_assoc, List.singleton_append]
    | invoke =>
      simp only [runOps, deferred, ih, TaskQueue.invoke, List.nil_append, List.foldl_append]

theorem runOps_final_invoke {α σ : Type} (handler : σ → α → σ) (ops : List (QueueOp α)) (s : σ) :
    runOps handler (ops ++ [QueueOp.invoke]) (TaskQueue.empty, s) =
      (TaskQueue.empty, (deferred ops).foldl handler s) := by
  rw [runOps_append]
  have h := runOps_fold handler ops TaskQueue.empty s
  generalize runOps handler ops (TaskQueue.empty, s) = r at h
  obtain ⟨q, s1⟩ := r
  simp only [runOps, TaskQueue.invoke, TaskQueue.empty] at h ⊢
  simp only [List.nil_append] at h
  rw [h]

theorem foldl_log {α : Type} (xs : List α) :
    ∀ log : List α, xs.foldl (fun l v => l ++ [v]) log = log ++ xs := by
  induction xs with
  | nil => intro log; simp
  | cons x xs ih => intro log; simp [List.foldl_cons, ih]

theorem foldl_go (xs : List V) : ∀ tot : Int, xs.foldl V.go tot = tot + (xs.map V.val).sum := by
  induction xs with
  | nil => intro tot; simp
  | cons x xs ih =>
    intro tot
    simp only [List.foldl_cons, ih, V.go, List.map_cons, List.sum_cons]
    ring

/-- C9: under the queue contract (`defer` appends a copy, `invoke` calls
the handler once per queued item in FIFO order and empties the queue), for
every handler, every sequence of `defer` and `invoke` operations and every
initial state, after a final `invoke` the queue is empty and the handler
has been applied exactly to the deferred items, once each, in submission
order; so the log of handler calls is the list of deferred items and the
total accumulated by `V::go` is the sum of the deferred values.  In
`TaskQueueTest::run` the queue operations are an `invoke` before
`i = 0, 30, 60, 90` and one at the end around the `defer` of 0..99, and the
final values of `x` and `tot` are both 4950, so the assertion `x == tot`
holds. -/
theorem task_queue_contract :
    (∀ (α σ : Type) (handler : σ → α → σ) (ops : List (QueueOp α)) (s : σ),
      runOps handler (ops ++ [QueueOp.invoke]) (TaskQueue.empty, s) =
        (TaskQueue.empty, (deferred ops).foldl handler s)) ∧
    (∀ (α : Type) (ops : List (QueueOp α)),
      (runOps (fun (l : List α) v => l ++ [v]) (ops ++ [QueueOp.invoke])
        (TaskQueue.empty, [])).2 = deferred ops) ∧
    (∀ (ops : List (QueueOp V)),
      (runOps V.go (ops ++ [QueueOp.invoke]) (TaskQueue.empty, 0)).2 =
        ((deferred ops).map V.val).sum) ∧
    TaskQueueTest.run = (4950, 4950) ∧
    TaskQueueTest.run.1 = TaskQueueTest.run.2 ∧
    deferred (TaskQueueTest.ops 100 0) = (List.range 100).map (fun i => (⟨i⟩ : V)) ∧
    (runOps V.go (TaskQueueTest.ops 100 0) (TaskQueue.empty, 0)).2 = TaskQueueTest.run.2 ∧
    (TaskQueueTest.ops 100 0).count QueueOp.invoke = 5 := by
  refine ⟨fun α σ handler ops s => runOps_final_invoke handler ops s, ?_, ?_, ?_, ?_, ?_, ?_, ?_⟩
  · intro α ops
    rw [runOps_final_invoke]
    simp [foldl_log]
  · intro ops
    rw [runOps_final_invoke]
    simp [foldl_go]
  · set_option maxRecDepth 100000 in decide
  · set_option maxRecDepth 100000 in decide
  · set_option maxRecDepth 100000 in decide
  · set_option maxRecDepth 100000 in decide
  · set_option maxRecDepth 100000 in decide

end PerfTests
